import Mathlib

/-!
Shallow embedding of `src/iptime_wol_gui.py` (WOL Magic Packet Sender).

Strings are embedded as `List Char`.  Python exceptions are embedded as
`Option`/`Except` results.  Network effects (socket creation, `sendto`) are
embedded as an explicit environment `SendEnv` giving the outcome of each
socket acquisition and each send attempt; the `ping` subprocess is embedded
as a boolean-valued probe function indexed by attempt number.
-/

/-- Python whitespace test used by `str.strip()` (ASCII fragment; the inputs
relevant here are ASCII). -/
def pyIsSpace (c : Char) : Bool :=
  c == ' ' || c == '\t' || c == '\n' || c == '\r' || c == '\x0b' || c == '\x0c'

/-- Python `str.strip()`: drop whitespace from both ends. -/
def pyStrip (s : List Char) : List Char :=
  ((s.dropWhile pyIsSpace).reverse.dropWhile pyIsSpace).reverse

/-- Python `str.upper()` on one character (ASCII fragment). -/
def pyUpper (c : Char) : Char :=
  if 'a' ≤ c ∧ c ≤ 'z' then Char.ofNat (c.toNat - 32) else c

/-- The character class of the regex `[0-9A-F]` in `normalize_mac`, which is
also the string `"0123456789ABCDEF"` used by the inline validation in
`send_magic_packet_advanced`. -/
def hexUpperChars : List Char :=
  ['0', '1', '2', '3', '4'] ++ ['5', '6', '7', '8', '9'] ++
    ['A', 'B', 'C', 'D', 'E', 'F']

/-- Membership in the `[0-9A-F]` class, as a Bool. -/
def hexUpperClass (c : Char) : Bool := hexUpperChars.contains c

/-- Case-insensitive hexadecimal digits: the valid-octet alphabet from the
spec ("twelve hexadecimal characters, case-insensitive on input"). -/
def hexDigitChars : List Char :=
  ['0', '1', '2', '3', '4'] ++ ['5', '6', '7', '8', '9'] ++
    ['a', 'b', 'c', 'd', 'e', 'f'] ++ ['A', 'B', 'C', 'D', 'E', 'F']

/-- `re.fullmatch(r"([0-9A-F]{2}:){5}[0-9A-F]{2}", mac)` from `normalize_mac`,
unrolled: exactly 17 characters, hex pairs separated by colons. -/
def macFullmatch : List Char → Bool
  | [a, b, s1, c, d, s2, e, f, s3, g, h, s4, i, j, s5, k, l] =>
    hexUpperClass a && hexUpperClass b && s1 == ':' &&
    hexUpperClass c && hexUpperClass d && s2 == ':' &&
    hexUpperClass e && hexUpperClass f && s3 == ':' &&
    hexUpperClass g && hexUpperClass h && s4 == ':' &&
    hexUpperClass i && hexUpperClass j && s5 == ':' &&
    hexUpperClass k && hexUpperClass l
  | _ => false

/-- Per-character action of `.upper().replace("-", ":")` inside
`normalize_mac` (replacing a single character is a character map). -/
def normChar (c : Char) : Char :=
  if pyUpper c = '-' then ':' else pyUpper c

/-- `normalize_mac` (lines 43-47): strip, uppercase, turn dashes into colons,
then require a full match of the colon-separated pattern.  A `none` result
embeds the raised `ValueError`. -/
def normalize_mac (mac_str : List Char) : Option (List Char) :=
  let mac := (pyStrip mac_str).map normChar
  if macFullmatch mac then some mac else none

/-- The inline normalization of `send_magic_packet_advanced` (line 65):
`mac.replace(":", "").replace("-", "").upper()` — removing every occurrence
of a single character is a filter. -/
def mac_clean (mac : List Char) : List Char :=
  ((mac.filter (fun c => c != ':')).filter (fun c => c != '-')).map pyUpper

/-- The inline validation of `send_magic_packet_advanced` (line 66): the
cleaned address passes iff it has length 12 and every character is in
`"0123456789ABCDEF"`. -/
def macCleanValid (l : List Char) : Bool :=
  l.length == 12 && l.all (fun c => hexUpperClass c)

/-- Numeric value of a validated uppercase hex digit. -/
def hexVal (c : Char) : Nat :=
  if c.isDigit then c.toNat - 48 else c.toNat - 55

/-- `bytes.fromhex` on the validated 12-character address: consecutive pairs
of hex digits become bytes. -/
def bytesFromHexPairs : List Char → List Nat
  | a :: b :: rest => (16 * hexVal a + hexVal b) :: bytesFromHexPairs rest
  | _ => []

/-- Line 71: `magic_packet = b"\xff" * 6 + mac_bytes * 16`. -/
def magicPacket (mac_bytes : List Nat) : List Nat :=
  List.replicate 6 255 ++ (List.replicate 16 mac_bytes).flatten

/-- Value of a nonempty all-digit string. -/
def digitsVal (ds : List Char) : Nat :=
  ds.foldl (fun n c => n * 10 + (c.toNat - 48)) 0

/-- Digit-run parsing for `int()`. -/
def digitsToNat (ds : List Char) : Option Nat :=
  if !ds.isEmpty && ds.all Char.isDigit then some (digitsVal ds) else none

/-- Python `int(s)` on an already-stripped string: optional sign followed by
decimal digits (underscore grouping and non-ASCII digits are not modelled;
no claim depends on them). -/
def parseIntPy (s : List Char) : Option Int :=
  match s with
  | '+' :: ds => (digitsToNat ds).map (fun n => (n : Int))
  | '-' :: ds => (digitsToNat ds).map (fun n => -(n : Int))
  | _ => (digitsToNat s).map (fun n => (n : Int))

/-- Line 17: `DEFAULT_PORTS = [7, 9]`. -/
def DEFAULT_PORTS : List Int := [7, 9]

/-- The two validation errors of `send_magic_packet_advanced`: the
`ValueError` for an unparseable port and the one for a malformed MAC. -/
inductive WolError where
  | invalidPort : WolError
  | invalidAddress : WolError
  deriving DecidableEq

/-- Lines 54-62: blank port input selects `DEFAULT_PORTS`; otherwise the
input must parse as an integer, giving a single-port list; an unparseable
input raises (embedded as `Except.error`). -/
def parsePorts (port_input : List Char) : Except WolError (List Int) :=
  if (pyStrip port_input).isEmpty then Except.ok DEFAULT_PORTS
  else
    match parseIntPy (pyStrip port_input) with
    | some p => Except.ok [p]
    | none => Except.error WolError.invalidPort

/-- Outcome of one `sock.sendto` call: it returned a byte count, or raised. -/
inductive AttemptOutcome where
  | sent : Nat → AttemptOutcome
  | raised : AttemptOutcome
  deriving DecidableEq

/-- The network environment of one run of `send_magic_packet_advanced`:
`sockOk i` tells whether acquiring and configuring the socket for the i-th
targeted port succeeds, and `attempt i j` gives the outcome of the j-th
`sendto` on the i-th port. -/
structure SendEnv where
  sockOk : Nat → Bool
  attempt : Nat → Nat → AttemptOutcome

/-- Line 87: an attempt counts iff `sendto` did not raise and reported the
full packet length. -/
def attemptSent (o : AttemptOutcome) (plen : Nat) : Bool :=
  match o with
  | AttemptOutcome.sent n => n == plen
  | AttemptOutcome.raised => false

/-- Lines 83-91: `sent_count` after the 3-attempt loop on the i-th port. -/
def sentCount (env : SendEnv) (plen i : Nat) : Nat :=
  (List.range 3).countP (fun j => attemptSent (env.attempt i j) plen)

/-- The three shapes of per-port diagnostic strings appended to `results`
(lines 95, 97, 100), keeping the data they interpolate. -/
inductive PortResult where
  | success : Int → Nat → PortResult
  | failed : Int → PortResult
  | sockError : Int → PortResult
  deriving DecidableEq

/-- Lines 77-100 for one port: if the socket is acquired, count successful
attempts; a positive count contributes 1 to `success_count` and records a
success line, zero records a failure line; a socket-level error records an
error line and contributes nothing. -/
def portStep (env : SendEnv) (plen i : Nat) (port : Int) : Nat × PortResult :=
  if env.sockOk i then
    let sc := sentCount env plen i
    if 0 < sc then (1, PortResult.success port sc)
    else (0, PortResult.failed port)
  else (0, PortResult.sockError port)

/-- The `for port in ports` loop (lines 76-102), accumulating
`success_count` and `results` in order; `i` is the index of the next port. -/
def runPortsFrom (env : SendEnv) (plen : Nat) : Nat → List Int → Nat × List PortResult
  | _, [] => (0, [])
  | i, p :: rest =>
    let step := portStep env plen i p
    let rem := runPortsFrom env plen (i + 1) rest
    (step.1 + rem.1, step.2 :: rem.2)

/-- Line 104: the function returns `(success_count > 0, results)`. -/
def runPorts (env : SendEnv) (plen : Nat) (ports : List Int) : Bool × List PortResult :=
  let r := runPortsFrom env plen 0 ports
  (decide (0 < r.1), r.2)

/-- `send_magic_packet_advanced` (lines 52-104): parse the port input, clean
and validate the MAC, build the magic packet, then run the transmission
loop in the given environment. -/
def send_magic_packet_advanced (env : SendEnv) (mac port_input : List Char) :
    Except WolError (Bool × List PortResult) :=
  match parsePorts port_input with
  | Except.error e => Except.error e
  | Except.ok ports =>
    let mc := mac_clean mac
    if macCleanValid mc then
      let magic_packet := magicPacket (bytesFromHexPairs mc)
      Except.ok (runPorts env magic_packet.length ports)
    else Except.error WolError.invalidAddress

/-- The `for i in range(10)` ping loop in `App._do_ping` (lines 259-265):
`probe i` is the result of the i-th `ping_once` invocation; the result pairs
the final `ok` flag with the number of probe invocations performed. -/
def pingLoop (probe : Nat → Bool) : Nat → Nat → Bool × Nat
  | _, 0 => (false, 0)
  | i, r + 1 =>
    if probe i then (true, 1)
    else
      let rest := pingLoop probe (i + 1) r
      (rest.1, rest.2 + 1)

/-- `App._do_ping`'s poll: up to 10 probes starting at attempt 0. -/
def pingPoll (probe : Nat → Bool) : Bool × Nat := pingLoop probe 0 10

/-- Python `str.replace(pat, "")` (leftmost, non-overlapping), fuelled by the
remaining length so the recursion is structural. -/
def removeAllGo (pat : List Char) : Nat → List Char → List Char
  | _, [] => []
  | 0, s => s
  | fuel + 1, c :: rest =>
    if pat.isPrefixOf (c :: rest) then removeAllGo pat fuel (rest.drop (pat.length - 1))
    else c :: removeAllGo pat fuel rest

/-- Python `s.replace(pat, "")` for a nonempty pattern. -/
def removeAll (pat s : List Char) : List Char := removeAllGo pat s.length s

/-- The literal `"http://"`. -/
def httpPat : List Char := ['h', 't', 't', 'p', ':', '/', '/']

/-- The literal `"https://"`. -/
def httpsPat : List Char := ['h', 't', 't', 'p', 's', ':', '/', '/']

/-- Python `str.strip("/")`: remove `/` from both ends. -/
def stripBothSlash (s : List Char) : List Char :=
  ((s.dropWhile (fun c => c == '/')).reverse.dropWhile (fun c => c == '/')).reverse

/-- Line 215 of `App._run_task`:
`router_ip.replace("http://", "").replace("https://", "").strip("/")`. -/
def clean_host (router_ip : List Char) : List Char :=
  stripBothSlash (removeAll httpsPat (removeAll httpPat router_ip))

instance {ε α : Type} [DecidableEq ε] [DecidableEq α] : DecidableEq (Except ε α) := fun x y =>
  match x, y with
  | Except.ok a, Except.ok b =>
    if h : a = b then isTrue (by rw [h]) else isFalse (by intro he; cases he; exact h rfl)
  | Except.error a, Except.error b =>
    if h : a = b then isTrue (by rw [h]) else isFalse (by intro he; cases he; exact h rfl)
  | Except.ok _, Except.error _ => isFalse (by intro he; cases he)
  | Except.error _, Except.ok _ => isFalse (by intro he; cases he)

/-- An environment in which every socket opens and every send reports the
full 102-byte count; used to instantiate theorems at concrete inputs. -/
def wEnvAll : SendEnv :=
  { sockOk := fun _ => true, attempt := fun _ _ => AttemptOutcome.sent 102 }

/-- An environment in which every send attempt raises. -/
def wEnvRaise : SendEnv :=
  { sockOk := fun _ => true, attempt := fun _ _ => AttemptOutcome.raised }

/-! ## Helper lemmas -/

theorem pingLoop_first_success (probe : Nat → Bool) :
    ∀ r i m, m < r → probe (i + m) = true → (∀ j, j < m → probe (i + j) = false) →
      pingLoop probe i r = (true, m + 1) := by
  intro r
  induction r with
  | zero => intro i m hm hp hb; omega
  | succ r ih =>
    intro i m hm hp hb
    cases m with
    | zero =>
      have h0 : probe i = true := by simpa using hp
      simp [pingLoop, h0]
    | succ m =>
      have h0 : probe i = false := by simpa using hb 0 (by omega)
      have h2 := ih (i + 1) m (by omega)
        (by rwa [show i + 1 + m = i + (m + 1) by omega])
        (fun j hj => by
          have := hb (j + 1) (by omega)
          rwa [show i + (j + 1) = i + 1 + j by omega] at this)
      simp [pingLoop, h0, h2]

theorem pingLoop_all_fail (probe : Nat → Bool) :
    ∀ r i, (∀ j, j < r → probe (i + j) = false) → pingLoop probe i r = (false, r) := by
  intro r
  induction r with
  | zero => intro i h; rfl
  | succ r ih =>
    intro i h
    have h0 : probe i = false := by simpa using h 0 (by omega)
    have h2 := ih (i + 1) (fun j hj => by
      have := h (j + 1) (by omega)
      rwa [show i + (j + 1) = i + 1 + j by omega] at this)
    simp [pingLoop, h0, h2]

/-! ## C3: bounded reachability poll -/

/-- C3: with maxAttempts = 10, if the underlying probe first succeeds on
attempt k (1 ≤ k ≤ 10, i.e. probe index k - 1), the loop performs exactly k
probe invocations and reports reachable; if all 10 probes fail it performs
exactly 10 invocations and reports unreachable. -/
theorem ping_poll_bounded (probe : Nat → Bool) (k : Nat) :
    (1 ≤ k → k ≤ 10 → probe (k - 1) = true → (∀ j, j < k - 1 → probe j = false) →
      pingPoll probe = (true, k)) ∧
    ((∀ j, j < 10 → probe j = false) → pingPoll probe = (false, 10)) := by
  constructor
  · intro h1 h2 hp hb
    have h := pingLoop_first_success probe 10 0 (k - 1) (by omega) (by simpa using hp)
      (fun j hj => by simpa using hb j hj)
    have hk : k - 1 + 1 = k := by omega
    unfold pingPoll
    rw [h, hk]
  · intro hb
    exact pingLoop_all_fail probe 10 0 (fun j hj => by simpa using hb j hj)

theorem ping_poll_bounded_witness :
    pingPoll (fun j => j == 2) = (true, 3) ∧ pingPoll (fun _ => false) = (false, 10) :=
  ⟨(ping_poll_bounded (fun j => j == 2) 3).1 (by decide) (by decide) (by decide)
      (by decide),
   (ping_poll_bounded (fun _ => false) 0).2 (by decide)⟩

/-! ## C4: magic packet layout -/

/-- C4: for every 6-byte hardware address, the constructed magic packet is
exactly 102 bytes, bytes 0-5 are 0xFF, and the 6-byte address repeats 16
times from byte 6 through byte 101 (byte 6 + 6r + j is address byte j). -/
theorem magic_packet_layout (b0 b1 b2 b3 b4 b5 : Nat) :
    (magicPacket [b0, b1, b2, b3, b4, b5]).length = 102 ∧
    (∀ i, i < 6 → (magicPacket [b0, b1, b2, b3, b4, b5]).getD i 0 = 255) ∧
    (∀ r, r < 16 → ∀ j, j < 6 →
      (magicPacket [b0, b1, b2, b3, b4, b5]).getD (6 + 6 * r + j) 0 =
        [b0, b1, b2, b3, b4, b5].getD j 0) := by
  refine ⟨rfl, ?_, ?_⟩
  · intro i hi
    interval_cases i <;> rfl
  · intro r hr j hj
    interval_cases r <;> interval_cases j <;> rfl

theorem magic_packet_layout_witness :
    (0 : Nat) < 6 ∧ (magicPacket [170, 187, 204, 221, 238, 255]).getD 0 0 = 255 :=
  ⟨by decide, (magic_packet_layout 170 187 204 221 238 255).2.1 0 (by decide)⟩

/-! ## C5: port range -/

/-- C5 counterexample: the port specification "70000" (and "-5") is accepted
without raising, and the sender targets exactly that value, which is outside
the valid UDP port range 0-65535. -/
theorem port_range_counterexample :
    parsePorts ("70000".toList) = Except.ok [70000] ∧
    parsePorts ("-5".toList) = Except.ok [-5] ∧
    (70000 : Int) > 65535 ∧ (-5 : Int) < 0 := by
  decide

/-- C5 (amended): the default ports are in the valid UDP range, but a
user-supplied specification is accepted whenever it parses as an integer and
is targeted as-is: no range check is performed, so out-of-range values can
be targeted. -/
theorem ports_no_range_check (s : List Char) (n : Int) :
    (∀ p ∈ DEFAULT_PORTS, 0 ≤ p ∧ p ≤ 65535) ∧
    (parseIntPy (pyStrip s) = some n → parsePorts s = Except.ok [n]) := by
  constructor
  · decide
  · intro h
    have hne : (pyStrip s).isEmpty = false := by
      cases hs : pyStrip s with
      | nil => rw [hs] at h; simp [parseIntPy, digitsToNat] at h
      | cons a t => simp
    simp [parsePorts, hne, h]

theorem ports_no_range_check_witness :
    parsePorts ("70001".toList) = Except.ok [70001] :=
  (ports_no_range_check ("70001".toList) 70001).2 (by decide)

/-! ## C6: default and single-port selection -/

/-- C6: a blank port specification selects exactly the default port list
[7, 9]; a specification parsing to the single integer n selects exactly
[n]. -/
theorem default_or_single_port (pi : List Char) :
    (pyStrip pi = [] → parsePorts pi = Except.ok [7, 9]) ∧
    (∀ n : Int, parseIntPy (pyStrip pi) = some n → parsePorts pi = Except.ok [n]) := by
  constructor
  · intro h
    simp [parsePorts, h, DEFAULT_PORTS]
  · intro n h
    have hne : (pyStrip pi).isEmpty = false := by
      cases hs : pyStrip pi with
      | nil => rw [hs] at h; simp [parseIntPy, digitsToNat] at h
      | cons a t => simp
    simp [parsePorts, hne, h]

theorem default_or_single_port_witness :
    parsePorts (" ".toList) = Except.ok [7, 9] ∧ parsePorts ("42".toList) = Except.ok [42] :=
  ⟨(default_or_single_port (" ".toList)).1 (by decide),
   (default_or_single_port ("42".toList)).2 42 (by decide)⟩

/-! ## Sender-loop helper lemmas -/

theorem attemptSent_raised (plen : Nat) : attemptSent AttemptOutcome.raised plen = false := rfl

theorem portStep_fst (env : SendEnv) (plen i : Nat) (p : Int) :
    (portStep env plen i p).1 =
      if env.sockOk i = true ∧ 0 < sentCount env plen i then 1 else 0 := by
  unfold portStep
  by_cases h1 : env.sockOk i = true
  · by_cases h2 : 0 < sentCount env plen i <;> simp [h1, h2]
  · simp [h1]

theorem runPortsFrom_fst_pos (env : SendEnv) (plen : Nat) (ports : List Int) :
    ∀ i0, (0 < (runPortsFrom env plen i0 ports).1 ↔
      ∃ k, k < ports.length ∧ env.sockOk (i0 + k) = true ∧
        0 < sentCount env plen (i0 + k)) := by
  induction ports with
  | nil =>
    intro i0
    simp [runPortsFrom]
  | cons p rest ih =>
    intro i0
    have hstep : 0 < (portStep env plen i0 p).1 ↔
        (env.sockOk i0 = true ∧ 0 < sentCount env plen i0) := by
      rw [portStep_fst]
      by_cases hc : env.sockOk i0 = true ∧ 0 < sentCount env plen i0
      · simp [hc]
      · simp [hc]
    have hsplit : 0 < (runPortsFrom env plen i0 (p :: rest)).1 ↔
        0 < (portStep env plen i0 p).1 ∨ 0 < (runPortsFrom env plen (i0 + 1) rest).1 := by
      simp only [runPortsFrom]
      omega
    rw [hsplit, hstep, ih (i0 + 1)]
    constructor
    · intro h
      rcases h with h | ⟨k, hk, hs, hc⟩
      · exact ⟨0, by simp, by simpa using h.1, by simpa using h.2⟩
      · exact ⟨k + 1, by simp only [List.length_cons]; omega,
          by rwa [show i0 + (k + 1) = i0 + 1 + k by omega],
          by rwa [show i0 + (k + 1) = i0 + 1 + k by omega]⟩
    · intro h
      rcases h with ⟨k, hk, hs, hc⟩
      cases k with
      | zero => exact Or.inl ⟨by simpa using hs, by simpa using hc⟩
      | succ k =>
        refine Or.inr ⟨k, ?_, by rwa [show i0 + 1 + k = i0 + (k + 1) by omega],
          by rwa [show i0 + 1 + k = i0 + (k + 1) by omega]⟩
        simp only [List.length_cons] at hk
        omega

theorem runPortsFrom_snd (env : SendEnv) (plen : Nat) (ports : List Int) :
    ∀ i0, (runPortsFrom env plen i0 ports).2.length = ports.length ∧
      ∀ k, k < ports.length →
        (runPortsFrom env plen i0 ports).2.getD k (PortResult.failed 0) =
          (portStep env plen (i0 + k) (ports.getD k 0)).2 := by
  induction ports with
  | nil =>
    intro i0
    exact ⟨rfl, fun k hk => absurd hk (by simp)⟩
  | cons p rest ih =>
    intro i0
    constructor
    · simpa [runPortsFrom] using (ih (i0 + 1)).1
    · intro k hk
      cases k with
      | zero => simp [runPortsFrom]
      | succ k =>
        have h2 := (ih (i0 + 1)).2 k (by simpa using hk)
        simp only [runPortsFrom]
        simpa [show i0 + 1 + k = i0 + (k + 1) by omega] using h2

theorem send_ok_eq (env : SendEnv) (mac pi : List Char) (ports : List Int)
    (hp : parsePorts pi = Except.ok ports)
    (hv : macCleanValid (mac_clean mac) = true) :
    send_magic_packet_advanced env mac pi =
      Except.ok (runPorts env
        (magicPacket (bytesFromHexPairs (mac_clean mac))).length ports) := by
  unfold send_magic_packet_advanced
  rw [hp]
  simp [hv]

/-! ## C2: aggregate success flag -/

/-- C2: over any list of targeted ports, the aggregate success flag returned
by the transmission loop is true iff at least one targeted port had its
socket acquired and recorded at least one successful send out of its 3
attempts; if every port records 0 successful sends the flag is false. -/
theorem aggregate_success_iff (env : SendEnv) (plen : Nat) (ports : List Int) :
    (runPorts env plen ports).1 = true ↔
      ∃ k, k < ports.length ∧ env.sockOk k = true ∧ 0 < sentCount env plen k := by
  show decide (0 < (runPortsFrom env plen 0 ports).1) = true ↔ _
  rw [decide_eq_true_eq]
  simpa using runPortsFrom_fst_pos env plen ports 0

/-! ## C7: validation errors precede network activity -/

/-- C7: a non-blank unparseable port specification yields the InvalidPort
error and a MAC that does not clean to 12 hex characters yields the
InvalidAddress error; in both cases the result is the same for every network
environment (the environment is never consulted: no socket is opened and no
send is attempted). -/
theorem validation_fail_fast (env : SendEnv) (mac pi : List Char) :
    ((pyStrip pi).isEmpty = false → parseIntPy (pyStrip pi) = none →
      send_magic_packet_advanced env mac pi = Except.error WolError.invalidPort) ∧
    (∀ ports, parsePorts pi = Except.ok ports → macCleanValid (mac_clean mac) = false →
      send_magic_packet_advanced env mac pi = Except.error WolError.invalidAddress) := by
  constructor
  · intro h1 h2
    have hp : parsePorts pi = Except.error WolError.invalidPort := by
      simp [parsePorts, h1, h2]
    unfold send_magic_packet_advanced
    rw [hp]
  · intro ports hp hv
    unfold send_magic_packet_advanced
    rw [hp]
    simp [hv]

theorem validation_fail_fast_witness :
    send_magic_packet_advanced wEnvAll ("AA:BB:CC:DD:EE:FF".toList) ("x".toList) =
      Except.error WolError.invalidPort ∧
    send_magic_packet_advanced wEnvAll ("ZZ".toList) ("7".toList) =
      Except.error WolError.invalidAddress :=
  ⟨(validation_fail_fast wEnvAll ("AA:BB:CC:DD:EE:FF".toList) ("x".toList)).1
      (by decide) (by decide),
   (validation_fail_fast wEnvAll ("ZZ".toList) ("7".toList)).2 [7]
      (by decide) (by decide)⟩

/-! ## C8: per-attempt errors are absorbed -/

/-- C8: (a) whenever validation passes, the sender returns normally in every
network environment, so per-attempt errors are never propagated as
exceptions; (b) a raised send attempt is counted as failed for that attempt
only — the count equals the successful-attempt count over the other
attempts, which still execute; (c) a port's contribution and diagnostic
depend only on that port's own socket and attempt outcomes, so errors on one
port leave the processing of other ports unchanged. -/
theorem attempt_errors_contained (env env2 : SendEnv) (mac pi : List Char)
    (plen i j : Nat) (ports : List Int) (p : Int) :
    (parsePorts pi = Except.ok ports → macCleanValid (mac_clean mac) = true →
      send_magic_packet_advanced env mac pi =
        Except.ok (runPorts env
          (magicPacket (bytesFromHexPairs (mac_clean mac))).length ports)) ∧
    (j < 3 → env.attempt i j = AttemptOutcome.raised →
      sentCount env plen i =
        ((List.range 3).filter (fun j2 => j2 != j)).countP
          (fun j2 => attemptSent (env.attempt i j2) plen)) ∧
    (env.sockOk i = env2.sockOk i → (∀ j2, env.attempt i j2 = env2.attempt i j2) →
      portStep env plen i p = portStep env2 plen i p) := by
  refine ⟨fun hp hv => send_ok_eq env mac pi ports hp hv, ?_, ?_⟩
  · intro hj hr
    have hrange : List.range 3 = [0, 1, 2] := rfl
    interval_cases j <;>
      simp [sentCount, hrange, List.countP_cons, List.filter_cons, hr, attemptSent_raised]
  · intro h1 h2
    have hsc : sentCount env plen i = sentCount env2 plen i := by
      unfold sentCount
      congr 1
      funext j2
      rw [h2 j2]
    unfold portStep
    rw [h1, hsc]

theorem attempt_errors_contained_witness :
    (send_magic_packet_advanced wEnvRaise ("AA:BB:CC:DD:EE:FF".toList) ("7".toList) =
      Except.ok (runPorts wEnvRaise
        (magicPacket (bytesFromHexPairs (mac_clean ("AA:BB:CC:DD:EE:FF".toList)))).length
        [7])) ∧
    sentCount wEnvRaise 102 0 =
      ((List.range 3).filter (fun j2 => j2 != 1)).countP
        (fun j2 => attemptSent (wEnvRaise.attempt 0 j2) 102) ∧
    portStep wEnvRaise 102 0 7 = portStep wEnvRaise 102 0 7 := by
  have h := attempt_errors_contained wEnvRaise wEnvRaise ("AA:BB:CC:DD:EE:FF".toList)
    ("7".toList) 102 0 1 [7] 7
  exact ⟨h.1 (by decide) (by decide), h.2.1 (by decide) (by decide),
    h.2.2 rfl (fun j2 => rfl)⟩

/-! ## C10: one diagnostic entry per targeted port, in order -/

/-- C10: whenever the sender returns (validation did not raise), the results
list has exactly one entry per targeted port, and entry k is precisely the
diagnostic produced for the k-th targeted port — including failed ports and
ports whose socket could not be opened. -/
theorem results_one_per_port (env : SendEnv) (mac pi : List Char) (flag : Bool)
    (results : List PortResult) (ports : List Int)
    (hp : parsePorts pi = Except.ok ports)
    (h : send_magic_packet_advanced env mac pi = Except.ok (flag, results)) :
    results.length = ports.length ∧
    ∀ k, k < ports.length →
      results.getD k (PortResult.failed 0) =
        (portStep env (magicPacket (bytesFromHexPairs (mac_clean mac))).length k
          (ports.getD k 0)).2 := by
  by_cases hv : macCleanValid (mac_clean mac) = true
  · have hok := send_ok_eq env mac pi ports hp hv
    rw [h] at hok
    have h2 : (flag, results) =
        runPorts env (magicPacket (bytesFromHexPairs (mac_clean mac))).length ports := by
      cases hok
      rfl
    have hres : results =
        (runPortsFrom env (magicPacket (bytesFromHexPairs (mac_clean mac))).length 0 ports).2 :=
      congrArg Prod.snd h2
    have h3 := runPortsFrom_snd env
      (magicPacket (bytesFromHexPairs (mac_clean mac))).length ports 0
    rw [hres]
    exact ⟨h3.1, fun k hk => by simpa using h3.2 k hk⟩
  · exfalso
    have hv2 : macCleanValid (mac_clean mac) = false := by
      cases hb : macCleanValid (mac_clean mac)
      · rfl
      · exact absurd hb hv
    unfold send_magic_packet_advanced at h
    rw [hp] at h
    simp [hv2] at h

theorem results_one_per_port_witness :
    ([PortResult.failed 7, PortResult.failed 9] : List PortResult).length =
      ([7, 9] : List Int).length ∧
    ([PortResult.failed 7, PortResult.failed 9] : List PortResult).getD 0
        (PortResult.failed 0) =
      (portStep wEnvRaise
        (magicPacket (bytesFromHexPairs (mac_clean ("AA:BB:CC:DD:EE:FF".toList)))).length 0
        (([7, 9] : List Int).getD 0 0)).2 := by
  have h := results_one_per_port wEnvRaise ("AA:BB:CC:DD:EE:FF".toList) ("".toList) false
    [PortResult.failed 7, PortResult.failed 9] [7, 9] (by decide) (by decide)
  exact ⟨h.1, h.2 0 (by decide)⟩

/-! ## Normalization helper lemmas -/

theorem dropWhile_eq_self_of_false {α : Type} (p : α → Bool) (s : List α)
    (h : ∀ c ∈ s, p c = false) : s.dropWhile p = s := by
  cases s with
  | nil => rfl
  | cons a t =>
    rw [List.dropWhile_cons, h a (by simp)]
    simp

theorem pyStrip_eq_self (s : List Char) (h : ∀ c ∈ s, pyIsSpace c = false) :
    pyStrip s = s := by
  unfold pyStrip
  rw [dropWhile_eq_self_of_false pyIsSpace s h]
  rw [dropWhile_eq_self_of_false pyIsSpace s.reverse (fun c hc => h c (by simpa using hc))]
  exact List.reverse_reverse s

theorem hexFacts (c : Char) (h : c ∈ hexDigitChars) :
    pyIsSpace c = false ∧ normChar c = pyUpper c ∧ pyUpper c ∈ hexUpperChars ∧
      hexUpperClass (pyUpper c) = true ∧ (c != ':') = true ∧ (c != '-') = true := by
  simp only [hexDigitChars, List.cons_append, List.nil_append] at h
  fin_cases h <;> decide

theorem hexUpperFacts (c : Char) (h : c ∈ hexUpperChars) :
    pyIsSpace c = false ∧ normChar c = c ∧ hexUpperClass c = true := by
  simp only [hexUpperChars, List.cons_append, List.nil_append] at h
  fin_cases h <;> decide

theorem mac_clean_nil : mac_clean [] = [] := rfl

theorem mac_clean_cons_sep (x : Char) (rest : List Char) (h : x = ':' ∨ x = '-') :
    mac_clean (x :: rest) = mac_clean rest := by
  rcases h with rfl | rfl <;> simp [mac_clean, List.filter_cons]

theorem mac_clean_cons_hex (d : Char) (rest : List Char) (h : d ∈ hexDigitChars) :
    mac_clean (d :: rest) = pyUpper d :: mac_clean rest := by
  obtain ⟨-, -, -, -, ha, hb⟩ := hexFacts d h
  simp [mac_clean, List.filter_cons, ha, hb]

/-! ## C1: MAC normalization across separator forms -/

/-- C1 counterexample: the valid separator-free 6-octet address
"AABBCCDDEEFF" is rejected by `normalize_mac` (the embedded `ValueError`),
and the inline normalization maps a valid lowercase separator-free address
to the 12-hex uppercase separator-free string, not to the colon-separated
canonical form. -/
theorem normalize_mac_counterexample :
    normalize_mac ("AABBCCDDEEFF".toList) = none ∧
    mac_clean ("aabbccddeeff".toList) = ("AABBCCDDEEFF".toList) := by
  decide

/-- C1 (amended): for every valid 6-octet input whose octet pairs are joined
by ':' or '-' separators (in any mixture, any letter case), `normalize_mac`
succeeds and returns the canonical uppercase colon-separated form, and
normalizing that canonical form returns it unchanged (idempotence); the
inline normalization of `send_magic_packet_advanced` accepts the same
inputs, and also the separator-free form, but yields the uppercase 12-hex
string without separators, which passes the inline validation. -/
theorem normalize_mac_separated (d0 d1 d2 d3 d4 d5 d6 d7 d8 d9 d10 d11 s1 s2 s3 s4 s5 : Char)
    (h0 : d0 ∈ hexDigitChars) (h1 : d1 ∈ hexDigitChars) (h2 : d2 ∈ hexDigitChars)
    (h3 : d3 ∈ hexDigitChars) (h4 : d4 ∈ hexDigitChars) (h5 : d5 ∈ hexDigitChars)
    (h6 : d6 ∈ hexDigitChars) (h7 : d7 ∈ hexDigitChars) (h8 : d8 ∈ hexDigitChars)
    (h9 : d9 ∈ hexDigitChars) (h10 : d10 ∈ hexDigitChars) (h11 : d11 ∈ hexDigitChars)
    (hs1 : s1 = ':' ∨ s1 = '-') (hs2 : s2 = ':' ∨ s2 = '-') (hs3 : s3 = ':' ∨ s3 = '-')
    (hs4 : s4 = ':' ∨ s4 = '-') (hs5 : s5 = ':' ∨ s5 = '-') :
    normalize_mac [d0, d1, s1, d2, d3, s2, d4, d5, s3, d6, d7, s4, d8, d9, s5, d10, d11] =
      some [pyUpper d0, pyUpper d1, ':', pyUpper d2, pyUpper d3, ':', pyUpper d4, pyUpper d5,
        ':', pyUpper d6, pyUpper d7, ':', pyUpper d8, pyUpper d9, ':', pyUpper d10,
        pyUpper d11] ∧
    normalize_mac [pyUpper d0, pyUpper d1, ':', pyUpper d2, pyUpper d3, ':', pyUpper d4,
        pyUpper d5, ':', pyUpper d6, pyUpper d7, ':', pyUpper d8, pyUpper d9, ':', pyUpper d10,
        pyUpper d11] =
      some [pyUpper d0, pyUpper d1, ':', pyUpper d2, pyUpper d3, ':', pyUpper d4, pyUpper d5,
        ':', pyUpper d6, pyUpper d7, ':', pyUpper d8, pyUpper d9, ':', pyUpper d10,
        pyUpper d11] ∧
    mac_clean [d0, d1, s1, d2, d3, s2, d4, d5, s3, d6, d7, s4, d8, d9, s5, d10, d11] =
      [pyUpper d0, pyUpper d1, pyUpper d2, pyUpper d3, pyUpper d4, pyUpper d5, pyUpper d6,
        pyUpper d7, pyUpper d8, pyUpper d9, pyUpper d10, pyUpper d11] ∧
    mac_clean [d0, d1, d2, d3, d4, d5, d6, d7, d8, d9, d10, d11] =
      [pyUpper d0, pyUpper d1, pyUpper d2, pyUpper d3, pyUpper d4, pyUpper d5, pyUpper d6,
        pyUpper d7, pyUpper d8, pyUpper d9, pyUpper d10, pyUpper d11] ∧
    macCleanValid [pyUpper d0, pyUpper d1, pyUpper d2, pyUpper d3, pyUpper d4, pyUpper d5,
      pyUpper d6, pyUpper d7, pyUpper d8, pyUpper d9, pyUpper d10, pyUpper d11] = true := by
  obtain ⟨w0, n0, m0, u0, a0, b0⟩ := hexFacts d0 h0
  obtain ⟨w1, n1, m1, u1, a1, b1⟩ := hexFacts d1 h1
  obtain ⟨w2, n2, m2, u2, a2, b2⟩ := hexFacts d2 h2
  obtain ⟨w3, n3, m3, u3, a3, b3⟩ := hexFacts d3 h3
  obtain ⟨w4, n4, m4, u4, a4, b4⟩ := hexFacts d4 h4
  obtain ⟨w5, n5, m5, u5, a5, b5⟩ := hexFacts d5 h5
  obtain ⟨w6, n6, m6, u6, a6, b6⟩ := hexFacts d6 h6
  obtain ⟨w7, n7, m7, u7, a7, b7⟩ := hexFacts d7 h7
  obtain ⟨w8, n8, m8, u8, a8, b8⟩ := hexFacts d8 h8
  obtain ⟨w9, n9, m9, u9, a9, b9⟩ := hexFacts d9 h9
  obtain ⟨w10, n10, m10, u10, a10, b10⟩ := hexFacts d10 h10
  obtain ⟨w11, n11, m11, u11, a11, b11⟩ := hexFacts d11 h11
  obtain ⟨v0, q0, r0⟩ := hexUpperFacts (pyUpper d0) m0
  obtain ⟨v1, q1, r1⟩ := hexUpperFacts (pyUpper d1) m1
  obtain ⟨v2, q2, r2⟩ := hexUpperFacts (pyUpper d2) m2
  obtain ⟨v3, q3, r3⟩ := hexUpperFacts (pyUpper d3) m3
  obtain ⟨v4, q4, r4⟩ := hexUpperFacts (pyUpper d4) m4
  obtain ⟨v5, q5, r5⟩ := hexUpperFacts (pyUpper d5) m5
  obtain ⟨v6, q6, r6⟩ := hexUpperFacts (pyUpper d6) m6
  obtain ⟨v7, q7, r7⟩ := hexUpperFacts (pyUpper d7) m7
  obtain ⟨v8, q8, r8⟩ := hexUpperFacts (pyUpper d8) m8
  obtain ⟨v9, q9, r9⟩ := hexUpperFacts (pyUpper d9) m9
  obtain ⟨v10, q10, r10⟩ := hexUpperFacts (pyUpper d10) m10
  obtain ⟨v11, q11, r11⟩ := hexUpperFacts (pyUpper d11) m11
  have e1 : normChar s1 = ':' := by rcases hs1 with rfl | rfl <;> decide
  have e2 : normChar s2 = ':' := by rcases hs2 with rfl | rfl <;> decide
  have e3 : normChar s3 = ':' := by rcases hs3 with rfl | rfl <;> decide
  have e4 : normChar s4 = ':' := by rcases hs4 with rfl | rfl <;> decide
  have e5 : normChar s5 = ':' := by rcases hs5 with rfl | rfl <;> decide
  have z1 : pyIsSpace s1 = false := by rcases hs1 with rfl | rfl <;> decide
  have z2 : pyIsSpace s2 = false := by rcases hs2 with rfl | rfl <;> decide
  have z3 : pyIsSpace s3 = false := by rcases hs3 with rfl | rfl <;> decide
  have z4 : pyIsSpace s4 = false := by rcases hs4 with rfl | rfl <;> decide
  have z5 : pyIsSpace s5 = false := by rcases hs5 with rfl | rfl <;> decide
  refine ⟨?_, ?_, ?_, ?_, ?_⟩
  · have hstrip : pyStrip [d0, d1, s1, d2, d3, s2, d4, d5, s3, d6, d7, s4, d8, d9, s5,
        d10, d11] = [d0, d1, s1, d2, d3, s2, d4, d5, s3, d6, d7, s4, d8, d9, s5, d10, d11] := by
      apply pyStrip_eq_self
      intro c hc
      simp only [List.mem_cons, List.not_mem_nil, or_false] at hc
      rcases hc with rfl | rfl | rfl | rfl | rfl | rfl | rfl | rfl | rfl | rfl | rfl | rfl |
        rfl | rfl | rfl | rfl | rfl
      · exact w0
      · exact w1
      · exact z1
      · exact w2
      · exact w3
      · exact z2
      · exact w4
      · exact w5
      · exact z3
      · exact w6
      · exact w7
      · exact z4
      · exact w8
      · exact w9
      · exact z5
      · exact w10
      · exact w11
    unfold normalize_mac
    rw [hstrip]
    simp only [List.map_cons, List.map_nil, n0, n1, n2, n3, n4, n5, n6, n7, n8, n9, n10, n11,
      e1, e2, e3, e4, e5]
    simp [macFullmatch, u0, u1, u2, u3, u4, u5, u6, u7, u8, u9, u10, u11]
  · have hstrip : pyStrip [pyUpper d0, pyUpper d1, ':', pyUpper d2, pyUpper d3, ':',
        pyUpper d4, pyUpper d5, ':', pyUpper d6, pyUpper d7, ':', pyUpper d8, pyUpper d9, ':',
        pyUpper d10, pyUpper d11] =
        [pyUpper d0, pyUpper d1, ':', pyUpper d2, pyUpper d3, ':', pyUpper d4, pyUpper d5, ':',
          pyUpper d6, pyUpper d7, ':', pyUpper d8, pyUpper d9, ':', pyUpper d10,
          pyUpper d11] := by
      apply pyStrip_eq_self
      intro c hc
      simp only [List.mem_cons, List.not_mem_nil, or_false] at hc
      rcases hc with rfl | rfl | rfl | rfl | rfl | rfl | rfl | rfl | rfl | rfl | rfl | rfl |
        rfl | rfl | rfl | rfl | rfl
      · exact v0
      · exact v1
      · decide
      · exact v2
      · exact v3
      · decide
      · exact v4
      · exact v5
      · decide
      · exact v6
      · exact v7
      · decide
      · exact v8
      · exact v9
      · decide
      · exact v10
      · exact v11
    have ecolon : normChar ':' = ':' := by decide
    unfold normalize_mac
    rw [hstrip]
    simp only [List.map_cons, List.map_nil, q0, q1, q2, q3, q4, q5, q6, q7, q8, q9, q10, q11,
      ecolon]
    simp [macFullmatch, r0, r1, r2, r3, r4, r5, r6, r7, r8, r9, r10, r11]
  · rw [mac_clean_cons_hex d0 _ h0, mac_clean_cons_hex d1 _ h1, mac_clean_cons_sep s1 _ hs1,
      mac_clean_cons_hex d2 _ h2, mac_clean_cons_hex d3 _ h3, mac_clean_cons_sep s2 _ hs2,
      mac_clean_cons_hex d4 _ h4, mac_clean_cons_hex d5 _ h5, mac_clean_cons_sep s3 _ hs3,
      mac_clean_cons_hex d6 _ h6, mac_clean_cons_hex d7 _ h7, mac_clean_cons_sep s4 _ hs4,
      mac_clean_cons_hex d8 _ h8, mac_clean_cons_hex d9 _ h9, mac_clean_cons_sep s5 _ hs5,
      mac_clean_cons_hex d10 _ h10, mac_clean_cons_hex d11 _ h11, mac_clean_nil]
  · rw [mac_clean_cons_hex d0 _ h0, mac_clean_cons_hex d1 _ h1, mac_clean_cons_hex d2 _ h2,
      mac_clean_cons_hex d3 _ h3, mac_clean_cons_hex d4 _ h4, mac_clean_cons_hex d5 _ h5,
      mac_clean_cons_hex d6 _ h6, mac_clean_cons_hex d7 _ h7, mac_clean_cons_hex d8 _ h8,
      mac_clean_cons_hex d9 _ h9, mac_clean_cons_hex d10 _ h10, mac_clean_cons_hex d11 _ h11,
      mac_clean_nil]
  · simp [macCleanValid, u0, u1, u2, u3, u4, u5, u6, u7, u8, u9, u10, u11]

theorem normalize_mac_separated_witness :
    normalize_mac ("aA-bB:cC-dD:eE-fF".toList) = some ("AA:BB:CC:DD:EE:FF".toList) ∧
    mac_clean ("aA-bB:cC-dD:eE-fF".toList) = ("AABBCCDDEEFF".toList) := by
  have h := normalize_mac_separated 'a' 'A' 'b' 'B' 'c' 'C' 'd' 'D' 'e' 'E' 'f' 'F'
    '-' ':' '-' ':' '-'
    (by decide) (by decide) (by decide) (by decide) (by decide) (by decide)
    (by decide) (by decide) (by decide) (by decide) (by decide) (by decide)
    (by decide) (by decide) (by decide) (by decide) (by decide)
  exact ⟨h.1, h.2.2.1⟩

/-! ## Host-normalization helper lemmas -/

theorem isPrefixOf_means_mem :
    ∀ (pat s : List Char), pat.isPrefixOf s = true → ∀ x ∈ pat, x ∈ s := by
  intro pat
  induction pat with
  | nil =>
    intro s h x hx
    simp at hx
  | cons a as ih =>
    intro s h x hx
    cases s with
    | nil => simp [List.isPrefixOf] at h
    | cons b bs =>
      simp only [List.isPrefixOf, Bool.and_eq_true, beq_iff_eq] at h
      rcases List.mem_cons.mp hx with rfl | hx2
      · simp [h.1]
      · exact List.mem_cons_of_mem b (ih bs h.2 x hx2)

theorem isPrefixOf_false_of_not_mem (pat s : List Char) (x : Char) (hx : x ∈ pat)
    (hs : x ∉ s) : pat.isPrefixOf s = false := by
  cases h : pat.isPrefixOf s
  · rfl
  · exact absurd (isPrefixOf_means_mem pat s h x hx) hs

theorem isPrefixOf_self_append : ∀ (l s : List Char), l.isPrefixOf (l ++ s) = true := by
  intro l
  induction l with
  | nil =>
    intro s
    simp [List.isPrefixOf]
  | cons a as ih =>
    intro s
    simp only [List.cons_append, List.isPrefixOf, Bool.and_eq_true, beq_self_eq_true,
      true_and]
    exact ih s

theorem removeAllGo_fuel_irrel (pat : List Char) :
    ∀ f1, ∀ s : List Char, ∀ f2, s.length ≤ f1 → s.length ≤ f2 →
      removeAllGo pat f1 s = removeAllGo pat f2 s := by
  intro f1
  induction f1 with
  | zero =>
    intro s f2 hl1 hl2
    have hnil : s = [] := List.eq_nil_of_length_eq_zero (by omega)
    subst hnil
    cases f2 <;> rfl
  | succ f1 ih =>
    intro s f2 hl1 hl2
    cases s with
    | nil => cases f2 <;> rfl
    | cons c rest =>
      cases f2 with
      | zero => simp at hl2
      | succ f2 =>
        simp only [removeAllGo]
        by_cases hp : pat.isPrefixOf (c :: rest) = true
        · rw [if_pos hp, if_pos hp]
          exact ih (rest.drop (pat.length - 1)) f2
            (by rw [List.length_drop]; simp only [List.length_cons] at hl1; omega)
            (by rw [List.length_drop]; simp only [List.length_cons] at hl2; omega)
        · rw [if_neg hp, if_neg hp]
          rw [ih rest f2 (by simp only [List.length_cons] at hl1; omega)
            (by simp only [List.length_cons] at hl2; omega)]

theorem removeAllGo_no_occurrence (pat : List Char) :
    ∀ fuel, ∀ s : List Char, s.length ≤ fuel →
      (∀ n, pat.isPrefixOf (s.drop n) = false) → removeAllGo pat fuel s = s := by
  intro fuel
  induction fuel with
  | zero =>
    intro s hl hocc
    have hnil : s = [] := List.eq_nil_of_length_eq_zero (by omega)
    subst hnil
    rfl
  | succ fuel ih =>
    intro s hl hocc
    cases s with
    | nil => rfl
    | cons c rest =>
      have h0 : pat.isPrefixOf (c :: rest) = false := by simpa using hocc 0
      simp only [removeAllGo, h0, Bool.false_eq_true, if_false]
      rw [ih rest (by simp only [List.length_cons] at hl; omega)
        (fun n => by simpa using hocc (n + 1))]

theorem removeAll_of_no_occurrence (pat s : List Char)
    (h : ∀ n, pat.isPrefixOf (s.drop n) = false) : removeAll pat s = s :=
  removeAllGo_no_occurrence pat s.length s (le_refl _) h

theorem removeAll_of_not_mem (pat s : List Char) (x : Char) (hx : x ∈ pat) (hs : x ∉ s) :
    removeAll pat s = s :=
  removeAll_of_no_occurrence pat s
    (fun n => isPrefixOf_false_of_not_mem pat (s.drop n) x hx
      (fun hmem => hs ((List.drop_sublist n s).mem hmem)))

theorem removeAll_self_append (pat s : List Char) (hne : pat ≠ []) :
    removeAll pat (pat ++ s) = removeAll pat s := by
  cases pat with
  | nil => exact absurd rfl hne
  | cons c pr =>
    have hpref : (c :: pr).isPrefixOf (c :: (pr ++ s)) = true :=
      isPrefixOf_self_append (c :: pr) s
    show removeAllGo (c :: pr) ((c :: pr ++ s).length) (c :: (pr ++ s)) =
      removeAllGo (c :: pr) s.length s
    have hlen : ((c :: pr) ++ s).length = (pr ++ s).length + 1 := by simp
    rw [show (c :: pr ++ s).length = (pr ++ s).length + 1 from hlen]
    simp only [removeAllGo, hpref, if_true, List.length_cons, Nat.add_sub_cancel]
    rw [List.drop_left pr s]
    exact removeAllGo_fuel_irrel (c :: pr) ((pr ++ s).length) s s.length
      (by simp only [List.length_append]; omega) (le_refl _)

theorem stripBothSlash_trailing (h : List Char) (hh : ∀ c ∈ h, (c == '/') = false) :
    stripBothSlash (h ++ ['/']) = h := by
  unfold stripBothSlash
  cases h with
  | nil => rfl
  | cons a t =>
    have ha : (a == '/') = false := hh a (by simp)
    rw [show (a :: t) ++ ['/'] = a :: (t ++ ['/']) from by simp]
    rw [List.dropWhile_cons, ha]
    simp only [Bool.false_eq_true, if_false]
    rw [show (a :: (t ++ ['/'])).reverse = '/' :: (a :: t).reverse from by simp]
    rw [List.dropWhile_cons]
    simp only [beq_self_eq_true, if_true]
    rw [dropWhile_eq_self_of_false _ _ (fun c hc => hh c (List.mem_reverse.mp hc))]
    exact List.reverse_reverse (a :: t)

theorem stripBothSlash_id (h : List Char) (hh : ∀ c ∈ h, (c == '/') = false) :
    stripBothSlash h = h := by
  unfold stripBothSlash
  rw [dropWhile_eq_self_of_false _ _ hh]
  rw [dropWhile_eq_self_of_false _ _ (fun c hc => hh c (by simpa using hc))]
  exact List.reverse_reverse h

/-! ## C9: host normalization -/

/-- C9 counterexample: the address "a/http://b" has no leading scheme prefix
and no trailing slash, so per the claim it should be unchanged, but the code
removes the interior occurrence of "http://"; likewise "/x" has its leading
slash stripped, which the claim does not allow. -/
theorem clean_host_counterexample :
    clean_host ("a/http://b".toList) = ("a/b".toList) ∧
    clean_host ("/x".toList) = ("x".toList) := by
  decide

/-- C9 (amended): the host normalization removes occurrences of "http://"
and then "https://" anywhere in the string (not only a leading prefix) and
strips '/' from both ends (not only trailing); for an address consisting of
a scheme prefix, a host containing neither ':' nor '/', and a trailing
slash, it yields exactly the bare host, and a bare host without such
characters is left unchanged. -/
theorem clean_host_scheme (h : List Char)
    (hc : ∀ c ∈ h, c ≠ ':' ∧ c ≠ '/') :
    clean_host (httpPat ++ h ++ ['/']) = h ∧
    clean_host (httpsPat ++ h ++ ['/']) = h ∧
    clean_host h = h := by
  have hslash : ∀ c ∈ h, (c == '/') = false := by
    intro c hcm
    rw [beq_eq_false_iff_ne]
    exact (hc c hcm).2
  have hcolonh : ':' ∉ h := fun hm => (hc ':' hm).1 rfl
  have hXcolon : ':' ∉ h ++ ['/'] := by
    intro hm
    rcases List.mem_append.mp hm with hm1 | hm2
    · exact hcolonh hm1
    · simp at hm2
  refine ⟨?_, ?_, ?_⟩
  · unfold clean_host
    rw [List.append_assoc]
    rw [removeAll_self_append httpPat (h ++ ['/']) (by decide)]
    rw [removeAll_of_not_mem httpPat (h ++ ['/']) ':' (by decide) hXcolon]
    rw [removeAll_of_not_mem httpsPat (h ++ ['/']) ':' (by decide) hXcolon]
    exact stripBothSlash_trailing h hslash
  · have hno : ∀ n, httpPat.isPrefixOf ((httpsPat ++ (h ++ ['/'])).drop n) = false := by
      intro n
      by_cases hn : n < 8
      · interval_cases n <;> rfl
      · have hm : n = (n - 8) + 8 := by omega
        rw [hm]
        have hdrop : (httpsPat ++ (h ++ ['/'])).drop ((n - 8) + 8) =
            (h ++ ['/']).drop (n - 8) := rfl
        rw [hdrop]
        exact isPrefixOf_false_of_not_mem _ _ ':' (by decide)
          (fun hm2 => hXcolon ((List.drop_sublist (n - 8) (h ++ ['/'])).mem hm2))
    unfold clean_host
    rw [List.append_assoc]
    rw [removeAll_of_no_occurrence httpPat (httpsPat ++ (h ++ ['/'])) hno]
    rw [removeAll_self_append httpsPat (h ++ ['/']) (by decide)]
    rw [removeAll_of_not_mem httpsPat (h ++ ['/']) ':' (by decide) hXcolon]
    exact stripBothSlash_trailing h hslash
  · unfold clean_host
    rw [removeAll_of_not_mem httpPat h ':' (by decide) hcolonh]
    rw [removeAll_of_not_mem httpsPat h ':' (by decide) hcolonh]
    exact stripBothSlash_id h hslash

theorem clean_host_scheme_witness :
    clean_host ("http://192.168.0.1/".toList) = ("192.168.0.1".toList) ∧
    clean_host ("https://192.168.0.1/".toList) = ("192.168.0.1".toList) ∧
    clean_host ("192.168.0.1".toList) = ("192.168.0.1".toList) :=
  clean_host_scheme ("192.168.0.1".toList) (by decide)
